import Mathlib

/-!
# Verification of the ASP file-monitor agent

A shallow embedding of `src/agent/main.go` and `src/agent/validator.go`
(an fsnotify-based change-coalescing commit agent for `.asp` files),
together with theorems settling the specification claims about it.

Modelling conventions:
* Time is a discrete `Nat` (seconds).  Go timers become explicit optional
  deadlines in the scheduler state (`none` = timer not armed / already fired).
* The event loop of `main` is modelled by `runFrom`: before each incoming
  filesystem event, every timer whose deadline lies strictly before the event
  time fires (chronologically, earliest first); a timer whose deadline
  coincides with an event time is processed after the event, and a tie
  between the two timers fires the debounce timer first (Go's `select` is
  nondeterministic on simultaneous readiness; the claims below avoid ties).
* External effects (os.Stat, git subprocesses, file reads) are oracles
  passed in as functions.
* Go `int` configuration values are `Int`; `time.NewTimer`/`Reset` with a
  non-positive duration fires immediately, hence deadline `now + d.toNat`.
-/

namespace AspAgent

/-- Configuration: the `-interval` (debounce) and `-max-wait` flags, seconds. -/
structure Cfg where
  interval : Int
  maxWait : Int
deriving Repr, DecidableEq

/-- The fsnotify operation bits relevant to `handleEvent`. -/
structure FsOp where
  create : Bool
  write : Bool
  rename : Bool
  remove : Bool
deriving Repr, DecidableEq

/-- An fsnotify event: a path and its operation bits. -/
structure FsEvent where
  name : String
  op : FsOp
deriving Repr, DecidableEq

/-- What caused a `performCommit` invocation. -/
inductive Trigger where
  | debounce
  | maxwait
  | shutdown
deriving Repr, DecidableEq

/-- One `performCommit` invocation: when it ran, the batch it drained,
and which trigger caused it. -/
structure Flush where
  time : Nat
  batch : List String
  trigger : Trigger
deriving Repr, DecidableEq

/-- The mutable scheduler state of `main`: `state.changed` (the pending set,
as an insertion-ordered duplicate-free list), the debounce `commitTimer`
deadline, and the `maxTimer` deadline (`none` = nil / stopped). -/
structure SchedState where
  changed : List String
  debounce : Option Nat
  maxT : Option Nat
deriving Repr, DecidableEq

/-- `main`'s initial state: empty set, `commitTimer` stopped, `maxTimer` nil. -/
def initState : SchedState := ⟨[], none, none⟩

/-- `state.changed[event.Name] = struct{}{}`: set insertion into the
insertion-ordered list representation of the Go map's key set. -/
def insertPath (s : List String) (p : String) : List String :=
  if p ∈ s then s else s ++ [p]

/-- `filepath.Ext`, scanning the reversed character list: the suffix starting
at the last dot after the last separator, `""` if there is none.
`acc` holds the characters already scanned (they follow the current one). -/
def extOfRev (acc : List Char) : List Char → List Char
  | [] => []
  | c :: cs => if c == '.' then c :: acc else if c == '/' then [] else extOfRev (c :: acc) cs

/-- Go `filepath.Ext`. -/
def extOf (name : String) : String :=
  String.mk (extOfRev [] name.toList.reverse)

/-- Go `strings.ToLower` (ASCII case folding, which is all the agent's
inputs exercise), written over the character list so that it evaluates by
kernel reduction. -/
def lowerStr (s : String) : String :=
  String.mk (s.data.map Char.toLower)

/-- Go `strings.TrimSpace`, written over the character list. -/
def trimStr (s : String) : String :=
  String.mk (((s.data.dropWhile Char.isWhitespace).reverse.dropWhile Char.isWhitespace).reverse)

/-- `matchesExtension` from main.go: lowercased extension is a watched one. -/
def matchesExtension (name : String) (exts : List String) : Bool :=
  exts.contains (lowerStr (extOf name))

/-- `scheduleCommit` from main.go: always reset the debounce timer to
`interval`; if `maxWait > 0` and the pending set now has exactly one entry
(`len(state.changed) == 1`, the code's test for "first change"), (re)start
the max-wait timer. -/
def scheduleCommit (cfg : Cfg) (now : Nat) (st : SchedState) : SchedState :=
  let deb : Option Nat := some (now + cfg.interval.toNat)
  let isFirstChange : Bool := st.changed.length == 1
  if 0 < cfg.maxWait ∧ isFirstChange = true then
    ⟨st.changed, deb, some (now + cfg.maxWait.toNat)⟩
  else
    ⟨st.changed, deb, st.maxT⟩

/-- `handleEvent` from main.go.  `stat name = some b` models a successful
`os.Stat` with `IsDir() = b`; `none` models a Stat error.  The returned
Bool records whether the watcher was extended (`addRecursive` was called).
A create event on an existing directory only extends the watcher and
returns; otherwise a relevant file event is inserted into the pending set
and `scheduleCommit` runs. -/
def handleEvent (stat : String → Option Bool) (exts : List String) (cfg : Cfg)
    (ev : FsEvent) (now : Nat) (st : SchedState) : SchedState × Bool :=
  if ev.op.create && (stat ev.name == some true) then
    (st, true)
  else if matchesExtension ev.name exts && (ev.op.write || ev.op.create || ev.op.rename) then
    (scheduleCommit cfg now { st with changed := insertPath st.changed ev.name }, false)
  else
    (st, false)

/-- The condition under which `handleEvent` inserts the event's path into the
pending set: not the directory branch, extension matches, and the operation
is create, write or rename. -/
def relevantEvent (stat : String → Option Bool) (exts : List String) (ev : FsEvent) : Bool :=
  !(ev.op.create && (stat ev.name == some true)) &&
    (matchesExtension ev.name exts && (ev.op.write || ev.op.create || ev.op.rename))

/-- Fire the single chronologically next due timer, if any.  `cutoff = some t`
means "due" is "deadline strictly before `t`" (a deadline equal to the next
event's arrival time is handled after that event); `cutoff = none` fires any
armed timer (unbounded quiet period).  A debounce fire runs `performCommit`,
which drains the set and also stops the max-wait timer; a max-wait fire runs
`performCommit`, which drains the set but leaves `commitTimer` untouched. -/
def fireOne (st : SchedState) (cutoff : Option Nat) : Option (SchedState × Flush) :=
  let due : Nat → Bool := fun d => match cutoff with
    | none => true
    | some t => d < t
  match st.debounce, st.maxT with
  | some d1, some d2 =>
    if due d1 && (decide (d1 ≤ d2) || !due d2) then
      some (⟨[], none, none⟩, ⟨d1, st.changed, .debounce⟩)
    else if due d2 then
      some (⟨[], st.debounce, none⟩, ⟨d2, st.changed, .maxwait⟩)
    else none
  | some d1, none =>
    if due d1 then some (⟨[], none, none⟩, ⟨d1, st.changed, .debounce⟩) else none
  | none, some d2 =>
    if due d2 then some (⟨[], st.debounce, none⟩, ⟨d2, st.changed, .maxwait⟩) else none
  | none, none => none

/-- Fire every due timer in chronological order.  Firing never arms a timer,
so two `fireOne` steps exhaust all possible fires. -/
def fireDue (st : SchedState) (cutoff : Option Nat) : SchedState × List Flush :=
  match fireOne st cutoff with
  | none => (st, [])
  | some (st1, f1) =>
    match fireOne st1 cutoff with
    | none => (st1, [f1])
    | some (st2, f2) => (st2, [f1, f2])

/-- The shutdown branch of `main`'s loop: stop both timers, then
`performCommit` unconditionally (the flush may carry an empty batch). -/
def shutdownFlush (st : SchedState) (now : Nat) : SchedState × Flush :=
  (⟨[], none, none⟩, ⟨now, st.changed, .shutdown⟩)

/-- The event loop over a time-ordered list of filesystem events: before each
event, due timers fire; then the event is handled at its arrival time. -/
def runFrom (stat : String → Option Bool) (exts : List String) (cfg : Cfg)
    (st : SchedState) (fs : List Flush) : List (Nat × FsEvent) → SchedState × List Flush
  | [] => (st, fs)
  | te :: rest =>
    let p := fireDue st (some te.1)
    let st2 := (handleEvent stat exts cfg te.2 te.1 p.1).1
    runFrom stat exts cfg st2 (fs ++ p.2) rest

/-- Run the loop from the initial state over a finite event sequence and then
let an unbounded quiet period elapse (all remaining armed timers fire).
Returns every `performCommit` invocation in order. -/
def run (stat : String → Option Bool) (exts : List String) (cfg : Cfg)
    (evs : List (Nat × FsEvent)) : List Flush :=
  let r := runFrom stat exts cfg initState [] evs
  r.2 ++ (fireDue r.1 none).2

/-- The flushes that hand a non-empty batch to the commit executor
(`performCommit` returns immediately on an empty batch). -/
def commits (fs : List Flush) : List Flush :=
  fs.filter fun f => !f.batch.isEmpty

/-- Inter-arrival discipline: starting from a previous arrival at `tk`, each
next event arrives no earlier than its predecessor and strictly less than
`i` after it. -/
def gapsOkB (i : Nat) : Nat → List (Nat × FsEvent) → Bool
  | _, [] => true
  | tk, te :: rest => (decide (tk ≤ te.1) && decide (te.1 < tk + i)) && gapsOkB i te.1 rest

/-- The paths of an event sequence. -/
def eventNames (evs : List (Nat × FsEvent)) : List String :=
  evs.map fun te => te.2.name

/-- Set-insertion of a whole list of paths, in arrival order. -/
def addAll (s : List String) (ns : List String) : List String :=
  ns.foldl insertPath s

/-- The scheduler invariant while a batch is accumulating: the pending set is
non-empty, the debounce deadline is `interval` after the last event (at
`tk`), and the max-wait timer is armed at `maxWait` after some event time
between the batch's first event (at `t0`) and `tk` when `maxWait > 0`
(re-arming on duplicate events moves that base time forward), and disarmed
when `maxWait ≤ 0`. -/
def SchedInv (cfg : Cfg) (t0 tk : Nat) (st : SchedState) : Prop :=
  st.changed ≠ [] ∧
  st.debounce = some (tk + cfg.interval.toNat) ∧
  (0 < cfg.maxWait → ∃ ta, t0 ≤ ta ∧ ta ≤ tk ∧ st.maxT = some (ta + cfg.maxWait.toNat)) ∧
  (cfg.maxWait ≤ 0 → st.maxT = none)

/-! ## The commit executor (`gitAddCommitPush`, main.go) -/

/-- One external git invocation made by the executor. -/
inductive GitCall where
  | add (files : List String)
  | status
  | commit (msg : String)
  | push
deriving Repr, DecidableEq

/-- The structured errors of `gitAddCommitPush`, one per failing stage
(each carries the captured process output). -/
inductive GitErr where
  | addFailed (out : String)
  | commitFailed (out : String)
  | pushFailed (out : String)
deriving Repr, DecidableEq

/-- Oracle for the external VCS: each operation's captured combined output
and whether the process succeeded (`runGit` returned `err == nil`). -/
structure GitOracle where
  add : List String → String × Bool
  status : String × Bool
  commit : String → String × Bool
  push : String × Bool

/-- Go `filepath.Base`: strip trailing separators, then take the last
element; empty path gives `"."`, all-separators gives `"/"`. -/
def baseName (p : String) : String :=
  if p = "" then "."
  else
    let rcs := (p.data.reverse).dropWhile (· == '/')
    if rcs = [] then "/"
    else String.mk (rcs.takeWhile (· != '/')).reverse

/-- `isNoChanges`-style substring test, over character lists. -/
def hasSub (needle : List Char) : List Char → Bool
  | [] => needle.isEmpty
  | c :: cs => needle.isPrefixOf (c :: cs) || hasSub needle cs

/-- Go `strings.Contains`. -/
def strContains (hay needle : String) : Bool :=
  hasSub needle.data hay.data

/-- `isNoChanges` from main.go: the benign "nothing to commit" patterns. -/
def isNoChanges (output : String) : Bool :=
  let l := lowerStr output
  strContains l "nothing to commit" || strContains l "no changes added to commit"

/-- The `fileList` part of the commit message: at most 3 files are listed by
base name, more are summarised as a count. -/
def commitFileList (files : List String) : String :=
  if files.length ≤ 3 then String.intercalate ", " (files.map baseName)
  else toString files.length ++ " archivos"

/-- The commit message of `gitAddCommitPush` (`ts` is the formatted
timestamp `time.Now().Format(...)`). -/
def commitMsg (files : List String) (ts : String) : String :=
  "Auto-commit: " ++ commitFileList files ++ " [" ++ ts ++ "]"

/-- `gitAddCommitPush` from main.go: stage, check status, commit (treating
"nothing to commit" output as success), push.  Returns the structured
result and the list of external git calls actually made, in order. -/
def gitAddCommitPush (g : GitOracle) (ts : String) (files : List String) :
    Except GitErr Unit × List GitCall :=
  let ra := g.add files
  if ra.2 = false then (.error (.addFailed ra.1), [.add files])
  else
    let rs := g.status
    if rs.2 = true ∧ trimStr rs.1 = "" then (.ok (), [.add files, .status])
    else
      let msg := commitMsg files ts
      let rc := g.commit msg
      if rc.2 = false then
        if isNoChanges rc.1 = false then
          (.error (.commitFailed rc.1), [.add files, .status, .commit msg])
        else
          (.ok (), [.add files, .status, .commit msg])
      else
        let rp := g.push
        if rp.2 = false then
          (.error (.pushFailed rp.1), [.add files, .status, .commit msg, .push])
        else
          (.ok (), [.add files, .status, .commit msg, .push])

/-- The external VCS calls a `performCommit` flush makes: none at all when
the drained batch is empty (`performCommit` returns before calling
`gitAddCommitPush`), otherwise those of `gitAddCommitPush`. -/
def performCommitCalls (g : GitOracle) (ts : String) (files : List String) : List GitCall :=
  if files.isEmpty then [] else (gitAddCommitPush g ts files).2

/-! ## The static validator (`ValidateASPFiles`, validator.go) -/

/-- A word character for the regex `\b` word boundary (Go: `[0-9A-Za-z_]`). -/
def isWordChar (c : Char) : Bool :=
  (('a' ≤ c && c ≤ 'z') || ('A' ≤ c && c ≤ 'Z') || ('0' ≤ c && c ≤ '9') || c == '_')

/-- `pat` occurs at the head of `s` with a word boundary right after it. -/
def prefixBoundary (pat : List Char) (s : List Char) : Bool :=
  match pat, s with
  | [], [] => true
  | [], c :: _ => !isWordChar c
  | _ :: _, [] => false
  | p :: ps, c :: cs => p == c && prefixBoundary ps cs

/-- Semantic model of `len(re.FindAllString(text, -1))` for the validator's
patterns `(?i)\bif\b`, `(?i)\bend if\b`, `(?i)\bfor\b`, `(?i)\bnext\b`:
the number of positions where the (lowercased) pattern occurs delimited by
word boundaries.  `prev` is the character before the current position.
(These patterns start and end with word characters, so word-bounded
occurrences cannot overlap and this count equals the regex match count.) -/
def countWordOcc (pat : List Char) : Option Char → List Char → Nat
  | _, [] => 0
  | prev, c :: cs =>
    let okBefore : Bool := match prev with
      | none => true
      | some p => !isWordChar p
    (if okBefore && prefixBoundary pat (c :: cs) then 1 else 0) +
      countWordOcc pat (some c) cs

/-- `ifRegex` match count over a file's text. -/
def ifCount (text : String) : Nat :=
  countWordOcc ['i', 'f'] none (lowerStr text).data

/-- `endIfRegex` match count over a file's text. -/
def endIfCount (text : String) : Nat :=
  countWordOcc ['e', 'n', 'd', ' ', 'i', 'f'] none (lowerStr text).data

/-- `forRegex` match count over a file's text. -/
def forCount (text : String) : Nat :=
  countWordOcc ['f', 'o', 'r'] none (lowerStr text).data

/-- `nextRegex` match count over a file's text. -/
def nextCount (text : String) : Nat :=
  countWordOcc ['n', 'e', 'x', 't'] none (lowerStr text).data

/-- Consume an exact literal, returning what follows. -/
def stripPref (pat s : List Char) : Option (List Char) :=
  match pat, s with
  | [], rest => some rest
  | _ :: _, [] => none
  | p :: ps, c :: cs => if p == c then stripPref ps cs else none

/-- Consume the `([^"]+)"` part of `includeRegex`: at least one non-quote
character up to the closing quote. -/
def readPath (acc : List Char) : List Char → Option (String × List Char)
  | [] => none
  | c :: cs =>
    if c == '"' then
      if acc.isEmpty then none else some (String.mk acc.reverse, cs)
    else readPath (c :: acc) cs

/-- A match of `includeRegex` = `<!--#include (file|virtual)="([^"]+)"-->`
starting exactly here; yields the captured path.  (`file` and `virtual`
differ in their first character, so trying `file` first is equivalent to
the regex alternation.) -/
def tryInclude (s : List Char) : Option String :=
  match stripPref "<!--#include ".data s with
  | none => none
  | some s1 =>
    let afterKind := match stripPref "file".data s1 with
      | some s2 => some s2
      | none => stripPref "virtual".data s1
    match afterKind with
    | none => none
    | some s2 =>
      match stripPref ['=', '"'] s2 with
      | none => none
      | some s3 =>
        match readPath [] s3 with
        | none => none
        | some (p, s4) =>
          match stripPref "-->".data s4 with
          | none => none
          | some _ => some p

/-- All captured include paths of `includeRegex.FindAllStringSubmatch`,
scanning every position (matches of this pattern do not overlap in the
validator's inputs). -/
def scanIncludes : List Char → List String
  | [] => []
  | c :: cs =>
    match tryInclude (c :: cs) with
    | some p => p :: scanIncludes cs
    | none => scanIncludes cs

/-- Go `filepath.Dir`, restricted to clean slash paths: everything before
the last separator, `"."` when there is none. -/
def dirOf (p : String) : String :=
  if p.data.contains '/' then
    let d := String.mk (((p.data.reverse.dropWhile (· != '/')).drop 1).reverse)
    if d = "" then "/" else d
  else "."

/-- Go `filepath.Join` on two components (for already-clean paths). -/
def joinPath (d p : String) : String :=
  if d = "" then p else d ++ "/" ++ p

/-- `ValidateASPFiles` from validator.go.  `readFile` models
`ioutil.ReadFile` (the error case carries the `%v` error text), `statOk`
models `os.Stat` succeeding on a path.  For each `.asp` file it reports
broken includes, unbalanced If/End If and For/Next counts, and curly
quotes, accumulating human-readable diagnostics in order. -/
def ValidateASPFiles (readFile : String → Except String String)
    (statOk : String → Bool) (files : List String) : List String :=
  files.foldl (fun errs file =>
    if lowerStr (extOf file) ≠ ".asp" then errs
    else
      match readFile file with
      | .error e => errs ++ ["[ERROR] No se pudo leer " ++ file ++ ": " ++ e]
      | .ok text =>
        let incErrs := (scanIncludes text.data).foldl (fun es path =>
          if statOk (joinPath (dirOf file) path) then es
          else es ++ ["[INCLUDE] En " ++ file ++ " → archivo no encontrado: " ++ path]) []
        let e1 := errs ++ incErrs
        let ic := ifCount text
        let ec := endIfCount text
        let e2 :=
          if ic ≠ ec then
            e1 ++ ["[SINTAXIS] En " ++ file ++ " → IF (" ++ toString ic ++
              ") y END IF (" ++ toString ec ++ ") no coinciden"]
          else e1
        let fc := forCount text
        let nc := nextCount text
        let e3 :=
          if fc ≠ nc then
            e2 ++ ["[SINTAXIS] En " ++ file ++ " → FOR (" ++ toString fc ++
              ") y NEXT (" ++ toString nc ++ ") no coinciden"]
          else e2
        if strContains text "“" || strContains text "”" then
          e3 ++ ["[UNICODE] En " ++ file ++ " → comillas inválidas detectadas"]
        else e3)
    []

/-! ## Startup repository check (`isGitRepo`, main.go) -/

/-- `isGitRepo` from main.go, over the result of `os.Stat(repo/.git)`:
`some b` is a successful Stat with `IsDir() = b`, `none` a Stat error.
Accepts only when the Stat succeeds and reports a directory. -/
def isGitRepo (statGitDir : Option Bool) : Bool :=
  match statGitDir with
  | some isDir => isDir
  | none => false

/-- Outcome of `main`'s startup check. -/
inductive StartupResult where
  | fatalNotRepo
  | proceed
deriving Repr, DecidableEq

/-- The guard at the top of `main`: `log.Fatalf` (process terminates before
the event loop) unless `isGitRepo` accepts the repository path. -/
def startupCheck (statGitDir : Option Bool) : StartupResult :=
  if isGitRepo statGitDir then .proceed else .fatalNotRepo

/-! ## Helper lemmas about the scheduler -/

/-- Anatomy of a timer fire: `performCommit` drains the pending set into the
flush's batch and stops the max-wait timer; the debounce deadline is cleared
on a debounce fire and untouched on a max-wait fire. -/
theorem fireOne_drains (st : SchedState) (c : Option Nat) (st' : SchedState) (f : Flush)
    (h : fireOne st c = some (st', f)) :
    st'.changed = [] ∧ st'.maxT = none ∧ f.batch = st.changed ∧
      (f.trigger = Trigger.debounce → st'.debounce = none) ∧
      (f.trigger = Trigger.maxwait → st'.debounce = st.debounce) := by
  cases hd : st.debounce <;> cases hm : st.maxT <;>
    simp only [fireOne, hd, hm] at h <;>
    (try split at h) <;> (try split at h) <;>
    simp only [Option.some.injEq, Prod.mk.injEq, reduceCtorEq, false_and] at h <;>
    obtain ⟨h1, h2⟩ := h <;> subst h1 <;> subst h2 <;> simp [hd]

/-- Claim C3, amended (theorem): every timer-fire flush leaves the pending
set empty and the max-wait timer disarmed, and its batch is exactly the
drained set; a debounce-triggered flush also disarms the debounce timer,
while a max-wait-triggered flush leaves the debounce deadline untouched.
Any timer fire immediately following a flush (no event in between) drains
an empty batch.  A shutdown flush disarms both timers and empties the set. -/
theorem C3_flush_resets_state_amended :
    (∀ (st : SchedState) (c : Option Nat) (st' : SchedState) (f : Flush),
        fireOne st c = some (st', f) →
        st'.changed = [] ∧ st'.maxT = none ∧
          (f.trigger = Trigger.debounce → st'.debounce = none) ∧
          (f.trigger = Trigger.maxwait → st'.debounce = st.debounce)) ∧
    (∀ (st : SchedState) (c c' : Option Nat) (st' st'' : SchedState) (f f' : Flush),
        fireOne st c = some (st', f) → fireOne st' c' = some (st'', f') →
        f'.batch = []) ∧
    (∀ (st : SchedState) (now : Nat),
        (shutdownFlush st now).1 = ⟨[], none, none⟩) := by
  refine ⟨fun st c st' f h => ?_, fun st c c' st' st'' f f' h h' => ?_, fun st now => rfl⟩
  · obtain ⟨h1, h2, _, h4, h5⟩ := fireOne_drains st c st' f h
    exact ⟨h1, h2, h4, h5⟩
  · obtain ⟨h1, _, _, _, _⟩ := fireOne_drains st c st' f h
    obtain ⟨_, _, h3, _, _⟩ := fireOne_drains st' c' st'' f' h'
    rw [h3, h1]

/-- Witness for the amended C3 theorem at a concrete state: a max-wait fire
at deadline 3 on pending set `["a.asp"]` with debounce deadline 7. -/
theorem C3_flush_resets_state_amended_witness :
    (⟨[], some 7, none⟩ : SchedState).changed = [] ∧
      (⟨[], some 7, none⟩ : SchedState).maxT = none ∧
      ((⟨3, ["a.asp"], Trigger.maxwait⟩ : Flush).trigger = Trigger.debounce →
        (⟨[], some 7, none⟩ : SchedState).debounce = none) ∧
      ((⟨3, ["a.asp"], Trigger.maxwait⟩ : Flush).trigger = Trigger.maxwait →
        (⟨[], some 7, none⟩ : SchedState).debounce =
          (⟨["a.asp"], some 7, some 3⟩ : SchedState).debounce) :=
  C3_flush_resets_state_amended.1 ⟨["a.asp"], some 7, some 3⟩ none ⟨[], some 7, none⟩
    ⟨3, ["a.asp"], Trigger.maxwait⟩ (by decide)

/-- Claim C3, counterexample: after the max-wait-triggered flush at t=3
(interval 10, maxWait 3, one write event for a.asp at t=0) the debounce
timer is still armed with deadline 10, and fires at t=10 with no relevant
event in between — so it is not true that after every flush both timers
are disarmed until the next relevant event. -/
theorem C3_counterexample :
    (runFrom (fun _ => some false) [".asp"] ⟨10, 3⟩ initState []
        [(0, ⟨"a.asp", ⟨false, true, false, false⟩⟩)]).1 =
      ⟨["a.asp"], some 10, some 3⟩ ∧
    fireOne ⟨["a.asp"], some 10, some 3⟩ none =
      some (⟨[], some 10, none⟩, ⟨3, ["a.asp"], Trigger.maxwait⟩) ∧
    (⟨[], some 10, none⟩ : SchedState).debounce ≠ none ∧
    run (fun _ => some false) [".asp"] ⟨10, 3⟩
        [(0, ⟨"a.asp", ⟨false, true, false, false⟩⟩)] =
      [⟨3, ["a.asp"], Trigger.maxwait⟩, ⟨10, [], Trigger.debounce⟩] := by
  decide

/-- Claim C2 (code bug): with interval 10 and maxWait 3, write events for the
single path a.asp at t = 0,2,4,6,8 keep the pending set at exactly one entry,
so `scheduleCommit`'s `len(state.changed) == 1` test re-arms the max-wait
timer on every duplicate event: after the duplicate at t=2 the max-wait
deadline is 5 (not the original 3), and the first flush only happens at
t=11 — past firstChange+maxWait = 3 — instead of being forced at t=3. -/
theorem C2_maxwait_rearmed_on_duplicate_events :
    (runFrom (fun _ => some false) [".asp"] ⟨10, 3⟩ initState []
        [(0, ⟨"a.asp", ⟨false, true, false, false⟩⟩)]).1.maxT = some 3 ∧
    (runFrom (fun _ => some false) [".asp"] ⟨10, 3⟩ initState []
        [(0, ⟨"a.asp", ⟨false, true, false, false⟩⟩),
         (2, ⟨"a.asp", ⟨false, true, false, false⟩⟩)]).1.maxT = some 5 ∧
    run (fun _ => some false) [".asp"] ⟨10, 3⟩
        [(0, ⟨"a.asp", ⟨false, true, false, false⟩⟩),
         (2, ⟨"a.asp", ⟨false, true, false, false⟩⟩),
         (4, ⟨"a.asp", ⟨false, true, false, false⟩⟩),
         (6, ⟨"a.asp", ⟨false, true, false, false⟩⟩),
         (8, ⟨"a.asp", ⟨false, true, false, false⟩⟩)] =
      [⟨11, ["a.asp"], Trigger.maxwait⟩, ⟨18, [], Trigger.debounce⟩] := by
  decide

/-- Claim C9: a create event whose path `os.Stat`s to an existing directory
only extends the watcher; the scheduler state — in particular the pending
change set — is returned unchanged, whatever the path's extension. -/
theorem C9_dir_create_only_extends_watcher (stat : String → Option Bool)
    (exts : List String) (cfg : Cfg) (ev : FsEvent) (now : Nat) (st : SchedState)
    (hc : ev.op.create = true) (hd : stat ev.name = some true) :
    handleEvent stat exts cfg ev now st = (st, true) := by
  simp [handleEvent, hc, hd]

/-- Witness for C9: a create event for a directory named `foo.asp` (a name
that passes the `.asp` extension filter) leaves the pending set untouched. -/
theorem C9_dir_create_only_extends_watcher_witness :
    handleEvent (fun _ => some true) [".asp"] ⟨180, 900⟩
      ⟨"foo.asp", ⟨true, false, false, false⟩⟩ 5 ⟨["x.asp"], some 7, none⟩ =
      (⟨["x.asp"], some 7, none⟩, true) :=
  C9_dir_create_only_extends_watcher _ _ _ _ _ _ rfl rfl

/-- Membership in `insertPath`. -/
theorem mem_insertPath (s : List String) (p q : String) :
    q ∈ insertPath s p ↔ q ∈ s ∨ q = p := by
  unfold insertPath
  split
  · constructor
    · exact Or.inl
    · rintro (h | rfl) <;> assumption
  · simp [List.mem_append]

/-- `insertPath` never empties a list. -/
theorem insertPath_ne_nil (s : List String) (p : String) : insertPath s p ≠ [] := by
  unfold insertPath
  split
  · intro h
    subst h
    simp_all
  · simp

/-- `insertPath` preserves freedom from duplicates. -/
theorem nodup_insertPath (s : List String) (p : String) (h : s.Nodup) :
    (insertPath s p).Nodup := by
  unfold insertPath
  split
  · exact h
  · next hp =>
    rw [List.nodup_append]
    refine ⟨h, List.nodup_singleton p, ?_⟩
    intro x hx hx'
    simp only [List.mem_singleton] at hx'
    subst hx'
    exact hp hx

/-- Membership in `addAll`. -/
theorem mem_addAll (ns : List String) :
    ∀ (s : List String) (p : String), p ∈ addAll s ns ↔ p ∈ s ∨ p ∈ ns := by
  induction ns with
  | nil => intro s p; simp [addAll]
  | cons n ns ih =>
    intro s p
    show p ∈ addAll (insertPath s n) ns ↔ _
    rw [ih, mem_insertPath]
    simp [or_assoc]

/-- `addAll` from a non-empty accumulator is non-empty. -/
theorem addAll_ne_nil (ns : List String) :
    ∀ s : List String, s ≠ [] → addAll s ns ≠ [] := by
  induction ns with
  | nil => intro s h; exact h
  | cons n ns ih =>
    intro s _
    exact ih (insertPath s n) (insertPath_ne_nil s n)

/-- `addAll` preserves freedom from duplicates. -/
theorem nodup_addAll (ns : List String) :
    ∀ s : List String, s.Nodup → (addAll s ns).Nodup := by
  induction ns with
  | nil => intro s h; exact h
  | cons n ns ih =>
    intro s h
    exact ih (insertPath s n) (nodup_insertPath s n h)

/-- If neither deadline is due before time `t`, no timer fires. -/
theorem fireDue_no_op (st : SchedState) (t d1 : Nat)
    (hdeb : st.debounce = some d1) (h1 : ¬ d1 < t)
    (hmax : st.maxT = none ∨ ∃ d2, st.maxT = some d2 ∧ ¬ d2 < t) :
    fireDue st (some t) = (st, []) := by
  have hone : fireOne st (some t) = none := by
    rcases hmax with hm | ⟨d2, hm, h2⟩
    · simp [fireOne, hdeb, hm, h1]
    · simp [fireOne, hdeb, hm, h1, h2]
  simp [fireDue, hone]

/-- A relevant event takes `handleEvent`'s insert-and-schedule branch. -/
theorem handleEvent_relevant (stat : String → Option Bool) (exts : List String)
    (cfg : Cfg) (ev : FsEvent) (now : Nat) (st : SchedState)
    (h : relevantEvent stat exts ev = true) :
    handleEvent stat exts cfg ev now st =
      (scheduleCommit cfg now { st with changed := insertPath st.changed ev.name }, false) := by
  unfold relevantEvent at h
  simp only [Bool.and_eq_true, Bool.not_eq_true'] at h
  obtain ⟨h1, h2⟩ := h
  simp [handleEvent, h1, h2]

/-- `scheduleCommit` after inserting a relevant path at time `t` re-establishes
the scheduler invariant with last-event time `t`. -/
theorem scheduleCommit_inv (cfg : Cfg) (t0 tk t : Nat) (st : SchedState) (name : String)
    (hinv : SchedInv cfg t0 tk st) (hkt : tk ≤ t) :
    SchedInv cfg t0 t (scheduleCommit cfg t { st with changed := insertPath st.changed name }) ∧
      (scheduleCommit cfg t { st with changed := insertPath st.changed name }).changed =
        insertPath st.changed name := by
  obtain ⟨hne, hdeb, hpos, hneg⟩ := hinv
  have hsc : scheduleCommit cfg t { st with changed := insertPath st.changed name } =
      if 0 < cfg.maxWait ∧ ((insertPath st.changed name).length == 1) = true then
        (⟨insertPath st.changed name, some (t + cfg.interval.toNat),
          some (t + cfg.maxWait.toNat)⟩ : SchedState)
      else
        ⟨insertPath st.changed name, some (t + cfg.interval.toNat), st.maxT⟩ := rfl
  rw [hsc]
  by_cases hc : 0 < cfg.maxWait ∧ ((insertPath st.changed name).length == 1) = true
  · rw [if_pos hc]
    refine ⟨⟨insertPath_ne_nil _ _, rfl, ?_, ?_⟩, rfl⟩
    · intro hmw
      obtain ⟨ta, h0a, hak, _⟩ := hpos hmw
      exact ⟨t, le_trans h0a (le_trans hak hkt), le_refl t, rfl⟩
    · intro hmw
      exact absurd hc.1 (by omega)
  · rw [if_neg hc]
    refine ⟨⟨insertPath_ne_nil _ _, rfl, ?_, ?_⟩, rfl⟩
    · intro hmw
      obtain ⟨ta, h0a, hak, hmx⟩ := hpos hmw
      exact ⟨ta, h0a, le_trans hak hkt, hmx⟩
    · intro hmw
      exact hneg hmw

/-- Processing a gap-disciplined, relevant, within-`maxWait` suffix of events
from an invariant state fires no timer and only grows the pending set. -/
theorem runFrom_inv (stat : String → Option Bool) (exts : List String) (cfg : Cfg)
    (t0 : Nat) (rest : List (Nat × FsEvent)) :
    ∀ (tk : Nat) (st : SchedState) (fs : List Flush),
      SchedInv cfg t0 tk st →
      gapsOkB cfg.interval.toNat tk rest = true →
      (∀ te ∈ rest, relevantEvent stat exts te.2 = true) →
      (0 < cfg.maxWait → ∀ te ∈ rest, te.1 < t0 + cfg.maxWait.toNat) →
      ∃ (tl : Nat) (stF : SchedState),
        runFrom stat exts cfg st fs rest = (stF, fs) ∧
        SchedInv cfg t0 tl stF ∧
        stF.changed = addAll st.changed (eventNames rest) := by
  induction rest with
  | nil =>
    intro tk st fs hinv _ _ _
    exact ⟨tk, st, rfl, hinv, rfl⟩
  | cons te r ih =>
    obtain ⟨t, ev⟩ := te
    intro tk st fs hinv hgap hrel hwin
    simp only [gapsOkB, Bool.and_eq_true, decide_eq_true_eq] at hgap
    obtain ⟨⟨hkt, hlt⟩, hgap'⟩ := hgap
    obtain ⟨hne, hdeb, hpos, hneg⟩ := hinv
    have hfd : fireDue st (some t) = (st, []) := by
      refine fireDue_no_op st t _ hdeb (by omega) ?_
      by_cases hmw : 0 < cfg.maxWait
      · obtain ⟨ta, h0a, hak, hmx⟩ := hpos hmw
        refine Or.inr ⟨ta + cfg.maxWait.toNat, hmx, ?_⟩
        have hw := hwin hmw (t, ev) (List.mem_cons_self _ _)
        simp only at hw
        omega
      · exact Or.inl (hneg (by omega))
    have hstep := scheduleCommit_inv cfg t0 tk t st ev.name ⟨hne, hdeb, hpos, hneg⟩ hkt
    have hrelhd : relevantEvent stat exts ev = true := hrel (t, ev) (List.mem_cons_self _ _)
    have hrun : runFrom stat exts cfg st fs ((t, ev) :: r) =
        runFrom stat exts cfg
          (scheduleCommit cfg t { st with changed := insertPath st.changed ev.name })
          fs r := by
      simp only [runFrom, hfd, handleEvent_relevant stat exts cfg ev t st hrelhd,
        List.append_nil]
    obtain ⟨tl, stF, heq, hinvF, hchF⟩ :=
      ih t (scheduleCommit cfg t { st with changed := insertPath st.changed ev.name }) fs
        hstep.1 hgap'
        (fun te hte => hrel te (List.mem_cons_of_mem _ hte))
        (fun hmw te hte => hwin hmw te (List.mem_cons_of_mem _ hte))
    refine ⟨tl, stF, by rw [hrun, heq], hinvF, ?_⟩
    rw [hchF, hstep.2]
    rfl

/-- With an unbounded quiet period after an accumulating state, exactly one
non-empty batch is handed to the executor, and it is the whole pending set. -/
theorem drain_single_commit (st : SchedState) (d1 : Nat)
    (hne : st.changed ≠ []) (hdeb : st.debounce = some d1) :
    ∃ f : Flush, commits (fireDue st none).2 = [f] ∧ f.batch = st.changed := by
  have hemp : st.changed.isEmpty = false := by
    cases h : st.changed
    · exact absurd h hne
    · rfl
  cases hm : st.maxT with
  | none =>
    refine ⟨⟨d1, st.changed, .debounce⟩, ?_, rfl⟩
    simp [fireDue, fireOne, hdeb, hm, commits, hemp]
  | some d2 =>
    by_cases hle : d1 ≤ d2
    · refine ⟨⟨d1, st.changed, .debounce⟩, ?_, rfl⟩
      simp [fireDue, fireOne, hdeb, hm, hle, commits, hemp]
    · refine ⟨⟨d2, st.changed, .maxwait⟩, ?_, rfl⟩
      simp [fireDue, fireOne, hdeb, hm, hle, commits, hemp]

/-- Claim C1, amended (theorem): for a non-empty sequence of relevant events
whose consecutive arrivals are separated by strictly less than `interval`,
followed by an unbounded quiet period, and which — unless `maxWait` is
disabled (`≤ 0`) — all arrive strictly less than `maxWait` after the first
event, exactly one flush hands a non-empty batch to the commit executor,
and that batch is duplicate-free and contains exactly the distinct paths of
the sequence. -/
theorem C1_single_flush_with_union_amended (stat : String → Option Bool)
    (exts : List String) (cfg : Cfg) (e0 : Nat × FsEvent) (rest : List (Nat × FsEvent))
    (hrel : ∀ te ∈ e0 :: rest, relevantEvent stat exts te.2 = true)
    (hgap : gapsOkB cfg.interval.toNat e0.1 rest = true)
    (hwin : 0 < cfg.maxWait → ∀ te ∈ rest, te.1 < e0.1 + cfg.maxWait.toNat) :
    ∃ f : Flush, commits (run stat exts cfg (e0 :: rest)) = [f] ∧
      f.batch ≠ [] ∧ f.batch.Nodup ∧
      ∀ p, (p ∈ f.batch ↔ p ∈ eventNames (e0 :: rest)) := by
  obtain ⟨t0, ev0⟩ := e0
  have hrel0 : relevantEvent stat exts ev0 = true := hrel (t0, ev0) (List.mem_cons_self _ _)
  -- the state after the first event
  have hins : insertPath ([] : List String) ev0.name = [ev0.name] := by
    simp [insertPath]
  have hsc0 : scheduleCommit cfg t0 { initState with changed := insertPath [] ev0.name } =
      if 0 < cfg.maxWait then
        (⟨[ev0.name], some (t0 + cfg.interval.toNat),
          some (t0 + cfg.maxWait.toNat)⟩ : SchedState)
      else
        ⟨[ev0.name], some (t0 + cfg.interval.toNat), none⟩ := by
    by_cases hmw : 0 < cfg.maxWait <;>
      simp [scheduleCommit, initState, insertPath, hmw]
  have hinit : SchedInv cfg t0 t0
        (scheduleCommit cfg t0 { initState with changed := insertPath [] ev0.name }) ∧
      (scheduleCommit cfg t0 { initState with changed := insertPath [] ev0.name }).changed =
        [ev0.name] := by
    rw [hsc0]
    by_cases hmw : 0 < cfg.maxWait
    · rw [if_pos hmw]
      refine ⟨⟨by simp, rfl, ?_, ?_⟩, rfl⟩
      · intro _
        exact ⟨t0, le_refl t0, le_refl t0, rfl⟩
      · intro h
        exact absurd hmw (by omega)
    · rw [if_neg hmw]
      refine ⟨⟨by simp, rfl, ?_, ?_⟩, rfl⟩
      · intro h
        exact absurd h hmw
      · intro _
        rfl
  have hstep0 : runFrom stat exts cfg initState [] ((t0, ev0) :: rest) =
      runFrom stat exts cfg
        (scheduleCommit cfg t0 { initState with changed := insertPath [] ev0.name })
        [] rest := by
    simp only [runFrom, handleEvent_relevant stat exts cfg ev0 t0 _ hrel0]
    rfl
  obtain ⟨tl, stF, heq, hinvF, hchF⟩ :=
    runFrom_inv stat exts cfg t0 rest t0
      (scheduleCommit cfg t0 { initState with changed := insertPath [] ev0.name }) []
      hinit.1 hgap
      (fun te hte => hrel te (List.mem_cons_of_mem _ hte))
      hwin
  obtain ⟨hneF, hdebF, _, _⟩ := hinvF
  obtain ⟨f, hf, hfb⟩ := drain_single_commit stF _ hneF hdebF
  refine ⟨f, ?_, ?_, ?_, ?_⟩
  · show commits ((runFrom stat exts cfg initState [] ((t0, ev0) :: rest)).2 ++
      (fireDue (runFrom stat exts cfg initState [] ((t0, ev0) :: rest)).1 none).2) = [f]
    rw [hstep0, heq]
    simpa using hf
  · rw [hfb]
    exact hneF
  · rw [hfb, hchF, hinit.2]
    exact nodup_addAll _ _ (List.nodup_singleton _)
  · intro p
    rw [hfb, hchF, hinit.2, mem_addAll]
    show p ∈ [ev0.name] ∨ p ∈ eventNames rest ↔ p ∈ ev0.name :: eventNames rest
    simp

/-- Witness for the amended C1 theorem: interval 3, maxWait 100; write events
for a.asp at t=0, b.asp at t=2 and a duplicate a.asp at t=3, then quiet. -/
theorem C1_single_flush_with_union_amended_witness :
    ∃ f : Flush, commits (run (fun _ => some false) [".asp"] ⟨3, 100⟩
        [(0, ⟨"a.asp", ⟨false, true, false, false⟩⟩),
         (2, ⟨"b.asp", ⟨false, true, false, false⟩⟩),
         (3, ⟨"a.asp", ⟨false, true, false, false⟩⟩)]) = [f] ∧
      f.batch ≠ [] ∧ f.batch.Nodup ∧
      ∀ p, (p ∈ f.batch ↔ p ∈ eventNames
        [((0:Nat), (⟨"a.asp", ⟨false, true, false, false⟩⟩ : FsEvent)),
         (2, ⟨"b.asp", ⟨false, true, false, false⟩⟩),
         (3, ⟨"a.asp", ⟨false, true, false, false⟩⟩)]) :=
  C1_single_flush_with_union_amended (fun _ => some false) [".asp"] ⟨3, 100⟩
    (0, ⟨"a.asp", ⟨false, true, false, false⟩⟩)
    [(2, ⟨"b.asp", ⟨false, true, false, false⟩⟩),
     (3, ⟨"a.asp", ⟨false, true, false, false⟩⟩)]
    (by decide) (by decide) (by decide)

/-- With the max-wait timer disarmed, timer fires keep it disarmed and can
only be debounce fires. -/
theorem fireDue_maxT_none (st : SchedState) (c : Option Nat) (h : st.maxT = none) :
    (fireDue st c).1.maxT = none ∧
      ∀ f ∈ (fireDue st c).2, f.trigger = Trigger.debounce := by
  cases hd : st.debounce with
  | none =>
    simp [fireDue, fireOne, hd, h]
  | some d1 =>
    cases c with
    | none => simp [fireDue, fireOne, hd, h]
    | some t =>
      by_cases hlt : d1 < t
      · simp [fireDue, fireOne, hd, h, hlt]
      · simp [fireDue, fireOne, hd, h, hlt]

/-- With `maxWait ≤ 0`, `scheduleCommit` never touches the max-wait timer. -/
theorem scheduleCommit_maxT_of_nonpos (cfg : Cfg) (hmw : cfg.maxWait ≤ 0)
    (now : Nat) (st : SchedState) :
    (scheduleCommit cfg now st).maxT = st.maxT := by
  have h : scheduleCommit cfg now st =
      if 0 < cfg.maxWait ∧ (st.changed.length == 1) = true then
        (⟨st.changed, some (now + cfg.interval.toNat),
          some (now + cfg.maxWait.toNat)⟩ : SchedState)
      else ⟨st.changed, some (now + cfg.interval.toNat), st.maxT⟩ := rfl
  rw [h, if_neg (fun hc => absurd hc.1 (by omega))]

/-- With `maxWait ≤ 0`, handling any event keeps the max-wait timer
disarmed. -/
theorem handleEvent_maxT_none (stat : String → Option Bool) (exts : List String)
    (cfg : Cfg) (ev : FsEvent) (now : Nat) (st : SchedState)
    (hmw : cfg.maxWait ≤ 0) (h : st.maxT = none) :
    (handleEvent stat exts cfg ev now st).1.maxT = none := by
  unfold handleEvent
  split
  · exact h
  · split
    · show (scheduleCommit _ _ _).maxT = none
      rw [scheduleCommit_maxT_of_nonpos cfg hmw]
      exact h
    · exact h

/-- With `maxWait ≤ 0`, the whole event loop keeps the max-wait timer
disarmed, and every flush it emits is debounce-triggered. -/
theorem runFrom_maxT_none (stat : String → Option Bool) (exts : List String)
    (cfg : Cfg) (hmw : cfg.maxWait ≤ 0) (evs : List (Nat × FsEvent)) :
    ∀ (st : SchedState) (fs : List Flush), st.maxT = none →
      (∀ f ∈ fs, f.trigger = Trigger.debounce) →
      (runFrom stat exts cfg st fs evs).1.maxT = none ∧
        ∀ f ∈ (runFrom stat exts cfg st fs evs).2, f.trigger = Trigger.debounce := by
  induction evs with
  | nil => intro st fs h hfs; exact ⟨h, hfs⟩
  | cons te r ih =>
    intro st fs h hfs
    show (runFrom stat exts cfg _ _ r).1.maxT = none ∧ _
    obtain ⟨hfd1, hfd2⟩ := fireDue_maxT_none st (some te.1) h
    refine ih _ _ (handleEvent_maxT_none stat exts cfg te.2 te.1 _ hmw hfd1) ?_
    intro f hf
    rcases List.mem_append.mp hf with hl | hr
    · exact hfs f hl
    · exact hfd2 f hr

/-- Claim C4: if `maxWait` is configured as zero or negative, the max-wait
timer is never armed — `scheduleCommit` leaves it untouched (hence `none`
forever from the initial state) — and every flush the event loop produces,
over any event sequence followed by quiet, is debounce-triggered (the only
other flush source in `main` is the shutdown signal, modelled separately by
`shutdownFlush`). -/
theorem C4_nonpositive_maxwait_never_armed (stat : String → Option Bool)
    (exts : List String) (cfg : Cfg) (hmw : cfg.maxWait ≤ 0) :
    (∀ (now : Nat) (st : SchedState), (scheduleCommit cfg now st).maxT = st.maxT) ∧
    (∀ evs : List (Nat × FsEvent), (runFrom stat exts cfg initState [] evs).1.maxT = none) ∧
    (∀ evs : List (Nat × FsEvent), ∀ f ∈ run stat exts cfg evs,
      f.trigger = Trigger.debounce) := by
  refine ⟨fun now st => ?_, fun evs => ?_, fun evs f hf => ?_⟩
  · exact scheduleCommit_maxT_of_nonpos cfg hmw now st
  · exact (runFrom_maxT_none stat exts cfg hmw evs initState [] rfl (by simp)).1
  · obtain ⟨h1, h2⟩ :=
      runFrom_maxT_none stat exts cfg hmw evs initState [] rfl (by simp)
    unfold run at hf
    rcases List.mem_append.mp hf with hl | hr
    · exact h2 f hl
    · exact (fireDue_maxT_none _ none h1).2 f hr

/-- Witness for C4 at `maxWait = 0` (and a concrete event trace for the
flush-trigger part, via the universally quantified conclusion). -/
theorem C4_nonpositive_maxwait_never_armed_witness :
    (∀ (now : Nat) (st : SchedState), (scheduleCommit ⟨180, 0⟩ now st).maxT = st.maxT) ∧
    (∀ evs : List (Nat × FsEvent),
      (runFrom (fun _ => some false) [".asp"] ⟨180, 0⟩ initState [] evs).1.maxT = none) ∧
    (∀ evs : List (Nat × FsEvent),
      ∀ f ∈ run (fun _ => some false) [".asp"] ⟨180, 0⟩ evs,
      f.trigger = Trigger.debounce) :=
  C4_nonpositive_maxwait_never_armed (fun _ => some false) [".asp"] ⟨180, 0⟩ (by decide)

/-- Claim C1, counterexample: interval 3, maxWait 5; write events for the
distinct paths a–d.asp at t = 0,2,4,6 (all gaps strictly below the
interval), then unbounded quiet.  The max-wait timer splits the sequence:
two non-empty flushes occur, not exactly one. -/
theorem C1_counterexample :
    gapsOkB 3 0
        [(2, ⟨"b.asp", ⟨false, true, false, false⟩⟩),
         (4, ⟨"c.asp", ⟨false, true, false, false⟩⟩),
         (6, ⟨"d.asp", ⟨false, true, false, false⟩⟩)] = true ∧
    (∀ te ∈ [((0:Nat), (⟨"a.asp", ⟨false, true, false, false⟩⟩ : FsEvent)),
             (2, ⟨"b.asp", ⟨false, true, false, false⟩⟩),
             (4, ⟨"c.asp", ⟨false, true, false, false⟩⟩),
             (6, ⟨"d.asp", ⟨false, true, false, false⟩⟩)],
        relevantEvent (fun _ => some false) [".asp"] te.2 = true) ∧
    (commits (run (fun _ => some false) [".asp"] ⟨3, 5⟩
        [(0, ⟨"a.asp", ⟨false, true, false, false⟩⟩),
         (2, ⟨"b.asp", ⟨false, true, false, false⟩⟩),
         (4, ⟨"c.asp", ⟨false, true, false, false⟩⟩),
         (6, ⟨"d.asp", ⟨false, true, false, false⟩⟩)])).length = 2 := by
  decide

/-- Claim C5: a flush whose batch is empty makes zero external VCS calls —
and conversely, a non-empty batch always makes at least one (the stage). -/
theorem C5_empty_batch_makes_no_vcs_calls (g : GitOracle) (ts : String)
    (files : List String) :
    performCommitCalls g ts files = [] ↔ files = [] := by
  cases files with
  | nil => simp [performCommitCalls]
  | cons a l =>
    have hne : (gitAddCommitPush g ts (a :: l)).2 ≠ [] := by
      simp only [gitAddCommitPush]
      split
      · simp
      · split
        · simp
        · split
          · split <;> simp
          · split <;> simp
    simp [performCommitCalls, hne]

/-- Witness for C5 at a concrete oracle and the empty batch. -/
theorem C5_empty_batch_makes_no_vcs_calls_witness :
    performCommitCalls ⟨fun _ => ("", true), ("", true), fun _ => ("", true), ("", true)⟩
        "2024-01-01 10:00:00" [] = [] ↔ ([] : List String) = [] :=
  C5_empty_batch_makes_no_vcs_calls _ "2024-01-01 10:00:00" []

/-- Claim C6: when staging succeeds, the status check does not short-circuit,
and the commit subprocess fails, the executor reports success exactly when
the commit's captured output matches a benign "nothing to commit" pattern;
any other output propagates a structured error identifying the commit
stage and carrying that output. -/
theorem C6_benign_commit_failure_classified (g : GitOracle) (ts : String)
    (files : List String)
    (hadd : (g.add files).2 = true)
    (hstat : ¬(g.status.2 = true ∧ trimStr g.status.1 = ""))
    (hcommit : (g.commit (commitMsg files ts)).2 = false) :
    (isNoChanges (g.commit (commitMsg files ts)).1 = true →
      (gitAddCommitPush g ts files).1 = .ok ()) ∧
    (isNoChanges (g.commit (commitMsg files ts)).1 = false →
      (gitAddCommitPush g ts files).1 =
        .error (.commitFailed (g.commit (commitMsg files ts)).1)) := by
  constructor <;> intro hno <;>
    simp [gitAddCommitPush, hadd, hstat, hcommit, hno]

/-- Witness for C6: a commit that fails with "nothing to commit, working
tree clean" output is reported as success. -/
theorem C6_benign_commit_failure_classified_witness :
    (isNoChanges ((⟨fun _ => ("", true), ("M  x.asp", true),
        fun _ => ("nothing to commit, working tree clean", false), ("", true)⟩ :
          GitOracle).commit (commitMsg ["x.asp"] "T")).1 = true →
      (gitAddCommitPush ⟨fun _ => ("", true), ("M  x.asp", true),
        fun _ => ("nothing to commit, working tree clean", false), ("", true)⟩
        "T" ["x.asp"]).1 = .ok ()) ∧
    (isNoChanges ((⟨fun _ => ("", true), ("M  x.asp", true),
        fun _ => ("nothing to commit, working tree clean", false), ("", true)⟩ :
          GitOracle).commit (commitMsg ["x.asp"] "T")).1 = false →
      (gitAddCommitPush ⟨fun _ => ("", true), ("M  x.asp", true),
        fun _ => ("nothing to commit, working tree clean", false), ("", true)⟩
        "T" ["x.asp"]).1 =
        .error (.commitFailed ((⟨fun _ => ("", true), ("M  x.asp", true),
          fun _ => ("nothing to commit, working tree clean", false), ("", true)⟩ :
            GitOracle).commit (commitMsg ["x.asp"] "T")).1)) :=
  C6_benign_commit_failure_classified _ "T" ["x.asp"] rfl (by decide) rfl

/-- Claim C7: every execution that reaches the commit step commits with the
deterministic message: base names joined for at most 3 entries, a count
otherwise, with the timestamp appended in brackets. -/
theorem C7_commit_message_deterministic (g : GitOracle) (ts : String)
    (files : List String)
    (hadd : (g.add files).2 = true)
    (hstat : ¬(g.status.2 = true ∧ trimStr g.status.1 = "")) :
    GitCall.commit (commitMsg files ts) ∈ (gitAddCommitPush g ts files).2 ∧
    (files.length ≤ 3 →
      commitMsg files ts =
        "Auto-commit: " ++ String.intercalate ", " (files.map baseName) ++
          " [" ++ ts ++ "]") ∧
    (3 < files.length →
      commitMsg files ts =
        "Auto-commit: " ++ (toString files.length ++ " archivos") ++
          " [" ++ ts ++ "]") := by
  refine ⟨?_, fun hle => ?_, fun hgt => ?_⟩
  · simp only [gitAddCommitPush]
    rw [if_neg (by simp [hadd]), if_neg hstat]
    split
    · split <;> simp
    · split <;> simp
  · simp [commitMsg, commitFileList, hle]
  · unfold commitMsg commitFileList
    rw [if_neg (by omega : ¬ files.length ≤ 3)]

/-- Witness for C7 with a four-entry batch (count form of the message). -/
theorem C7_commit_message_deterministic_witness :
    GitCall.commit (commitMsg ["a.asp", "b.asp", "c.asp", "d.asp"] "T") ∈
      (gitAddCommitPush ⟨fun _ => ("", true), ("M  a.asp", true),
        fun _ => ("", true), ("", true)⟩ "T" ["a.asp", "b.asp", "c.asp", "d.asp"]).2 ∧
    ((["a.asp", "b.asp", "c.asp", "d.asp"] : List String).length ≤ 3 →
      commitMsg ["a.asp", "b.asp", "c.asp", "d.asp"] "T" =
        "Auto-commit: " ++
          String.intercalate ", " (["a.asp", "b.asp", "c.asp", "d.asp"].map baseName) ++
          " [" ++ "T" ++ "]") ∧
    (3 < (["a.asp", "b.asp", "c.asp", "d.asp"] : List String).length →
      commitMsg ["a.asp", "b.asp", "c.asp", "d.asp"] "T" =
        "Auto-commit: " ++
          (toString (["a.asp", "b.asp", "c.asp", "d.asp"] : List String).length ++
            " archivos") ++ " [" ++ "T" ++ "]") :=
  C7_commit_message_deterministic _ "T" ["a.asp", "b.asp", "c.asp", "d.asp"] rfl (by decide)

/-- Claim C8 (code bug): the file `x.asp` containing `If a = 1 Then` /
`End If` — one If block correctly closed by one End If, with balanced
For/Next counts (none) — is still flagged: `ifRegex = (?i)\bif\b` also
matches the word `if` inside `end if`, so the validator counts IF twice
and END IF once and emits the structural-balance diagnostic for a
perfectly balanced file. -/
theorem C8_balanced_if_endif_still_flagged :
    ifCount "If a = 1 Then\nEnd If" = 2 ∧
    endIfCount "If a = 1 Then\nEnd If" = 1 ∧
    forCount "If a = 1 Then\nEnd If" = 0 ∧
    nextCount "If a = 1 Then\nEnd If" = 0 ∧
    ValidateASPFiles (fun _ => .ok "If a = 1 Then\nEnd If") (fun _ => true) ["x.asp"] =
      ["[SINTAXIS] En x.asp → IF (2) y END IF (1) no coinciden"] := by
  decide

/-- Claim C10: the startup check accepts a repository exactly when
`os.Stat(repo/.git)` succeeds and reports a directory; a `.git` regular
file (worktrees, submodules) or a Stat error makes `main` terminate
(`log.Fatalf`) before the event loop. -/
theorem C10_gitdir_must_be_directory :
    (∀ s : Option Bool, isGitRepo s = true ↔ s = some true) ∧
    startupCheck (some true) = StartupResult.proceed ∧
    startupCheck (some false) = StartupResult.fatalNotRepo ∧
    startupCheck none = StartupResult.fatalNotRepo := by
  refine ⟨fun s => ?_, rfl, rfl, rfl⟩
  cases s with
  | none => simp [isGitRepo]
  | some b => cases b <;> simp [isGitRepo]

/-- Witness for C10: a `.git` that is a regular file is rejected fatally. -/
theorem C10_gitdir_must_be_directory_witness :
    startupCheck (some false) = StartupResult.fatalNotRepo :=
  C10_gitdir_must_be_directory.2.2.1

end AspAgent
